import Mathlib

/-!
Shallow embedding of src/vae-gan/data/build_image_data.py.

The script converts a directory of images into sharded record files.  The
embedding below models, in exact arithmetic:

* numpy linspace followed by astype(int) (which truncates toward zero; on the
  nonnegative values produced here that is the floor) as `linspaceInt`;
* the per-thread worker ranges of `_process_image_files` as `workerRanges`;
* the per-worker shard boundaries of `_process_image_files_batch` as
  `shardRangesOf`, and the whole worker body (shard naming and record
  writing) as `processImageFilesBatch`, with fallible file reading/decoding
  returning `Except`;
* the thread fan-out of `_process_image_files` as `processImageFiles`: the
  workers are plain threads whose exceptions the coordinator join never
  re-raises, so the fan-out always returns normally, collecting the
  completed shard files and the exceptions swallowed by dead workers;
* the record construction of `_convert_to_example` as `convertToExample`;
* the train/validation split of `_process_datasets` (Python `int()`
  truncation modelled by `pyInt`);
* the fixed-seed shuffle of `_find_image_files` as `findImageFiles`
  (the pseudorandom generator of Python's random module is an external
  library collaborator and is modelled as a deterministic generator);
* the top-level `main` with its divisibility assertion as `mainRun`.

External collaborators (tf.gfile file reads, tf.image.decode_png, the
TFRecord writer) are modelled as parameters of an `Env` structure and as the
produced `ShardOutput` write trace.
-/

namespace BuildImageData

/-- Model of numpy.linspace(start, stop, num).astype(int) in exact arithmetic:
value k is start + (stop - start) * k / (num - 1), with division a floor
(astype(int) truncates toward zero and all values here are nonnegative).
For num = 1 numpy returns [start], matching the formula since x / 0 = 0. -/
def linspaceInt (start stop num : ℕ) : List ℕ :=
  (List.range num).map (fun k => start + (stop - start) * k / (num - 1))

/-- Model of numpy.arange(lo, hi): the list lo, lo+1, ..., hi-1. -/
def arange (lo hi : ℕ) : List ℕ :=
  (List.range (hi - lo)).map (fun k => lo + k)

/-- Worker ranges computed in _process_image_files (lines 253-257):
spacing = np.linspace(0, len(filenames), num_threads + 1).astype(int) and
ranges.append([spacing[i], spacing[i+1]]) for i in range(len(spacing) - 1). -/
def workerRanges (numFiles numThreads : ℕ) : List (ℕ × ℕ) :=
  let spacing := linspaceInt 0 numFiles (numThreads + 1)
  (List.range (spacing.length - 1)).map (fun i => (spacing.getD i 0, spacing.getD (i + 1) 0))

/-- Shard boundaries computed by worker t in _process_image_files_batch
(lines 199-204): num_shards_per_batch = num_shards / num_threads and
shard_ranges = np.linspace(ranges[t][0], ranges[t][1],
num_shards_per_batch + 1).astype(int), with num_threads = len(ranges)
instantiated to the worker-range count of _process_image_files. -/
def shardRangesOf (numFiles numThreads numShards t : ℕ) : List ℕ :=
  let r := (workerRanges numFiles numThreads).getD t (0, 0)
  linspaceInt r.1 r.2 (numShards / numThreads + 1)

/-- Printf '%.5d': decimal digits of n left-padded with zeros to width 5. -/
def pad5 (n : ℕ) : String :=
  let s := toString n
  String.mk (List.replicate (5 - s.length) '0') ++ s

/-- Model of os.path.join for the relative file names produced here. -/
def pathJoin (dir f : String) : String :=
  if dir = "" then f else if dir.endsWith "/" then dir ++ f else dir ++ "/" ++ f

/-- Model of os.path.basename: everything after the last '/'. -/
def basename (p : String) : String :=
  String.mk (p.data.foldl (fun acc c => if c = '/' then [] else acc ++ [c]) [])

/-- The fields of the Example proto built by _convert_to_example. -/
structure ExampleProto where
  height : ℕ
  width : ℕ
  colorspace : String
  channels : ℕ
  format : String
  filename : String
  encoded : String

/-- Placeholder ExampleProto used as a getD default. -/
def defaultExample : ExampleProto := ⟨0, 0, "", 0, "", "", ""⟩

/-- Embedding of _convert_to_example (lines 95-125): colorspace is
'RGBA' if channels == 4 else 'RGB' if channels == 3 else 'MONO' if
channels == 1 else 'unknown'; format is 'PNG'; filename is
os.path.basename(filename); encoded is the raw image buffer. -/
def convertToExample (filename imageBuffer : String) (height width channels : ℕ) :
    ExampleProto :=
  { height := height
    width := width
    colorspace :=
      if channels = 4 then "RGBA"
      else if channels = 3 then "RGB"
      else if channels = 1 then "MONO"
      else "unknown"
    channels := channels
    format := "PNG"
    filename := basename filename
    encoded := imageBuffer }

/-- Shape of a decoded image as produced by tf.image.decode_png. -/
structure DecodedImage where
  height : ℕ
  width : ℕ
  channels : ℕ

/-- External collaborators of the script: file reading (tf.gfile.FastGFile)
and PNG decoding (ImageCoder.decode_png), both of which may fail. -/
structure Env where
  readFile : String → Option String
  decodePng : String → Option DecodedImage

/-- Failure outcomes of a run: the startup assertion on the shard count, or
an unhandled per-file error escaping a worker. -/
inductive RunError where
  | configError : RunError
  | readError : String → RunError
  | decodeError : String → RunError

/-- Embedding of _process_image (lines 158-180): read the file, decode it,
return the raw buffer together with height, width and channel count.  Any
failure propagates (the source has no handler). -/
def processImage (env : Env) (filename : String) :
    Except RunError (String × ℕ × ℕ × ℕ) :=
  match env.readFile filename with
  | none => .error (.readError filename)
  | some imageData =>
    match env.decodePng imageData with
    | none => .error (.decodeError filename)
    | some image => .ok (imageData, image.height, image.width, image.channels)

/-- One iteration of the per-file loop of _process_image_files_batch
(lines 217-223): look up the file at index i, process it and build its
Example proto. -/
def buildRecord (env : Env) (filenames : List String) (i : ℕ) :
    Except RunError ExampleProto :=
  let filename := filenames.getD i ""
  match processImage env filename with
  | .error e => .error e
  | .ok (imageBuffer, height, width, channels) =>
    .ok (convertToExample filename imageBuffer height width channels)

/-- Sequential fallible loop: process the elements in order, stopping at the
first failure, as the unguarded Python for-loops do. -/
def exceptMap {α ε β : Type} (f : α → Except ε β) : List α → Except ε (List β)
  | [] => .ok []
  | a :: l =>
    match f a with
    | .error e => .error e
    | .ok b =>
      match exceptMap f l with
      | .error e => .error e
      | .ok bs => .ok (b :: bs)

/-- Records written into one shard: the loop over
files_in_shard = np.arange(shard_ranges[s], shard_ranges[s+1]). -/
def processShard (env : Env) (filenames : List String) (lo hi : ℕ) :
    Except RunError (List ExampleProto) :=
  exceptMap (buildRecord env filenames) (arange lo hi)

/-- One output shard file: its path and the records written into it,
in write order. -/
structure ShardOutput where
  path : String
  records : List ExampleProto

/-- Placeholder ShardOutput used as a getD default. -/
def defaultShardOutput : ShardOutput := ⟨"", []⟩

/-- Embedding of _process_image_files_batch (lines 183-240): assert the
shard count divides evenly among the threads, compute this worker's shard
boundaries, and for each local shard s in increasing order open the output
file named '%s-%.5d-of-%.5d' % (name, thread_index * num_shards_per_batch
+ s, num_shards) under the output directory and write the records of the
shard's index range in order. -/
def processImageFilesBatch (env : Env) (outputDirectory : String) (threadIndex : ℕ)
    (ranges : List (ℕ × ℕ)) (name : String) (filenames : List String)
    (numShards : ℕ) : Except RunError (List ShardOutput) :=
  let numThreads := ranges.length
  if numShards % numThreads ≠ 0 then .error .configError else
  let numShardsPerBatch := numShards / numThreads
  let r := ranges.getD threadIndex (0, 0)
  let shardRanges := linspaceInt r.1 r.2 (numShardsPerBatch + 1)
  exceptMap
    (fun s =>
      let shard := threadIndex * numShardsPerBatch + s
      let outputFilename := name ++ "-" ++ pad5 shard ++ "-of-" ++ pad5 numShards
      match processShard env filenames (shardRanges.getD s 0) (shardRanges.getD (s + 1) 0) with
      | .error e => .error e
      | .ok records => .ok ⟨pathJoin outputDirectory outputFilename, records⟩)
    (List.range numShardsPerBatch)

/-- Shard files of the workers that ran to completion: a worker whose
unhandled exception killed its thread wrote no complete output in the
model (shards it had already closed before dying are on disk but
untrustworthy partial output, spec section 7, and no claim concerns
them). -/
def workerOutputs (results : List (Except RunError (List ShardOutput))) :
    List ShardOutput :=
  (results.map (fun r => match r with | .ok outs => outs | .error _ => [])).flatten

/-- Exceptions swallowed by dead worker threads, observable only as the
tracebacks Python prints when a thread dies. -/
def workerErrors (results : List (Except RunError (List ShardOutput))) :
    List RunError :=
  results.foldr (fun r acc => match r with | .ok _ => acc | .error e => e :: acc) []

/-- Embedding of _process_image_files (lines 243-281): compute the worker
ranges and launch one worker per range as a plain threading.Thread
(line 273).  An exception in a worker kills only that thread: the workers
are not wrapped in coord.stop_on_exception and never call
coord.request_stop, so coord.join (line 278) waits for the threads and
never re-raises; the fan-out therefore always returns normally.  The
workers own disjoint index ranges and disjoint output files, so the
concurrent fan-out is modelled by collecting the per-worker outcomes in
thread-index order: the completed shard files on one side, the swallowed
worker exceptions on the other. -/
def processImageFiles (env : Env) (outputDirectory name : String)
    (filenames : List String) (numShards numThreads : ℕ) :
    List ShardOutput × List RunError :=
  let ranges := workerRanges filenames.length numThreads
  let results := (List.range ranges.length).map
    (fun t => processImageFilesBatch env outputDirectory t ranges name filenames numShards)
  (workerOutputs results, workerErrors results)

/-- Concatenation of the write traces and swallowed errors of the splits,
processed sequentially (train first, then validation). -/
def joinSplits (a b : List ShardOutput × List RunError) :
    List ShardOutput × List RunError :=
  (a.1 ++ b.1, a.2 ++ b.2)

/-- State of the modelled pseudorandom generator. -/
structure RandState where
  state : ℕ

/-- Modelled from the spec: Python's random module (random.seed) is an
external library collaborator; the spec only requires a deterministic
generator seeded with a fixed value, reproducible given the same algorithm. -/
def seedRand (seed : ℕ) : RandState := ⟨seed % 65537⟩

/-- Modelled from the spec: one step of the external pseudorandom generator,
a deterministic linear congruential step (the concrete Mersenne-Twister
implementation is library internals; any fixed deterministic algorithm
satisfies the spec's reproducibility requirement). -/
def nextRand (s : RandState) : ℕ × RandState :=
  let st := (s.state * 75 + 74) % 65537
  (st, ⟨st⟩)

/-- Modelled from the spec: a pseudorandom draw below n, as used by
random.shuffle to pick the swap partner. -/
def randBelow (n : ℕ) (s : RandState) : ℕ × RandState :=
  let p := nextRand s
  (p.1 % n, p.2)

/-- Exchange the elements at positions i and j (the Python parallel
assignment x[i], x[j] = x[j], x[i]); out-of-range indices leave the list
unchanged (they do not occur in the shuffle). -/
def listSwap {α : Type} (l : List α) (i j : ℕ) : List α :=
  match l.get? i, l.get? j with
  | some a, some b => (l.set i b).set j a
  | _, _ => l

/-- The Fisher-Yates loop of random.shuffle: for each i taken from the given
index list, draw j below i + 1 and swap positions i and j. -/
def pyShuffleAux {α : Type} : List ℕ → List α → RandState → List α
  | [], l, _ => l
  | i :: rest, l, s =>
    let p := randBelow (i + 1) s
    pyShuffleAux rest (listSwap l i p.1) p.2

/-- The index sequence reversed(range(1, n)) of random.shuffle. -/
def revRange (n : ℕ) : List ℕ :=
  ((List.range (n - 1)).map (fun k => k + 1)).reverse

/-- random.shuffle on a freshly seeded generator. -/
def pyShuffle {α : Type} (s : RandState) (l : List α) : List α :=
  pyShuffleAux (revRange l.length) l s

/-- Embedding of the shuffle of _find_image_files (lines 309-316): build
shuffled_index = list(range(len(filenames))), seed the generator with the
fixed constant 12345, shuffle the index list, and reorder the file list by
it.  The directory glob producing the unshuffled list is an external
collaborator and is the argument. -/
def findImageFiles (matchingFiles : List String) : List String :=
  let shuffledIndex := pyShuffle (seedRand 12345) (List.range matchingFiles.length)
  shuffledIndex.map (fun i => matchingFiles.getD i "")

/-- Python int() on a rational: truncation toward zero. -/
def pyInt (q : ℚ) : ℤ :=
  if 0 ≤ q then ⌊q⌋ else ⌈q⌉

/-- num_train_files = int(len(filenames) * (1 - FLAGS.validation_size))
(line 331). -/
def numTrainFiles (len : ℕ) (validationSize : ℚ) : ℤ :=
  pyInt ((len : ℚ) * (1 - validationSize))

/-- Python l[-k:] for 1 ≤ k ≤ len(l): the last k elements. -/
def lastSlice {α : Type} (l : List α) (k : ℕ) : List α :=
  l.drop (l.length - k)

/-- train_filenames = filenames[:num_train_files] (line 335). -/
def trainFilenames (filenames : List String) (validationSize : ℚ) : List String :=
  filenames.take (numTrainFiles filenames.length validationSize).toNat

/-- validation_filenames = filenames[-num_validation_files:] (line 339),
with num_validation_files = len(filenames) - num_train_files. -/
def validationFilenames (filenames : List String) (validationSize : ℚ) : List String :=
  lastSlice filenames (filenames.length - (numTrainFiles filenames.length validationSize).toNat)

/-- Command-line flags of the script (lines 72-79). -/
structure Flags where
  dataDirectory : String
  outputDirectory : String
  numShards : ℕ
  numThreads : ℕ
  validationSize : ℚ

/-- Embedding of _process_datasets (lines 322-340): shuffle the discovered
files, split them by the validation fraction, and process each non-empty
split in order (train first, then validation; a split whose size is zero is
skipped entirely).  A worker failure in the train split does not stop the
validation split: the splits are always both processed, since the fan-out
never raises into the main thread. -/
def processDatasets (env : Env) (flags : Flags) (matchingFiles : List String) :
    List ShardOutput × List RunError :=
  joinSplits
    (if (numTrainFiles (findImageFiles matchingFiles).length flags.validationSize).toNat
        ≠ 0 then
      processImageFiles env flags.outputDirectory "train"
        (trainFilenames (findImageFiles matchingFiles) flags.validationSize)
        flags.numShards flags.numThreads
    else ([], []))
    (if (findImageFiles matchingFiles).length
          - (numTrainFiles (findImageFiles matchingFiles).length flags.validationSize).toNat
          ≠ 0 then
      processImageFiles env flags.outputDirectory "validation"
        (validationFilenames (findImageFiles matchingFiles) flags.validationSize)
        flags.numShards flags.numThreads
    else ([], []))

/-- Embedding of main (lines 343-347): assert num_shards % num_threads == 0
before any other work; this assertion raises in the main thread, so it is
the only path on which the process exits non-zero.  The error branch
consults neither the environment nor the directory listing, so nothing is
read or written there.  On success the run always completes normally with
the collected write trace and swallowed worker errors. -/
def mainRun (flags : Flags) (env : Env) (matchingFiles : List String) :
    Except RunError (List ShardOutput × List RunError) :=
  if flags.numShards % flags.numThreads ≠ 0 then .error .configError
  else .ok (processDatasets env flags matchingFiles)

/-- Environment in which every file reads and decodes successfully, used to
instantiate theorems at concrete inputs. -/
def testEnv : Env :=
  ⟨fun _ => some "data", fun _ => some ⟨2, 2, 3⟩⟩

/-- Environment in which decoding always fails, used to instantiate the
error-path theorems at concrete inputs. -/
def failEnv : Env :=
  ⟨fun _ => some "data", fun _ => none⟩

/-! Helper lemmas about the linspace partitioning. -/

theorem getD_map_range {β : Type} (f : ℕ → β) (n i : ℕ) (d : β) (h : i < n) :
    ((List.range n).map f).getD i d = f i := by
  rw [List.getD_eq_getElem _ _ (by simpa using h)]
  simp

theorem linspaceInt_length (start stop num : ℕ) :
    (linspaceInt start stop num).length = num := by
  simp [linspaceInt]

theorem linspaceInt_getD (start stop num k : ℕ) (h : k < num) :
    (linspaceInt start stop num).getD k 0 = start + (stop - start) * k / (num - 1) := by
  unfold linspaceInt
  exact getD_map_range _ _ _ _ h

theorem boundary_mono (start stop n : ℕ) {i j : ℕ} (hij : i ≤ j) :
    start + (stop - start) * i / n ≤ start + (stop - start) * j / n := by
  have h := Nat.div_le_div_right (c := n) (Nat.mul_le_mul_left (stop - start) hij)
  omega

theorem boundary_zero (start stop n : ℕ) : start + (stop - start) * 0 / n = start := by
  simp

theorem boundary_last (start stop n : ℕ) (h : start ≤ stop) (hn : 0 < n) :
    start + (stop - start) * n / n = stop := by
  rw [Nat.mul_div_cancel _ hn]
  omega

theorem partition_exists (f : ℕ → ℕ) :
    ∀ n j, f 0 ≤ j → j < f n → ∃ i, i < n ∧ f i ≤ j ∧ j < f (i + 1) := by
  intro n
  induction n with
  | zero => intro j h0 hn; omega
  | succ n ih =>
    intro j h0 hn
    by_cases h : f n ≤ j
    · exact ⟨n, Nat.lt_succ_self n, h, hn⟩
    · obtain ⟨i, hi, h1, h2⟩ := ih j h0 (Nat.lt_of_not_le h)
      exact ⟨i, Nat.lt_succ_of_lt hi, h1, h2⟩

theorem partition_unique (f : ℕ → ℕ) (hf : ∀ {i j : ℕ}, i ≤ j → f i ≤ f j)
    {j i₁ i₂ : ℕ} (h₁ : f i₁ ≤ j ∧ j < f (i₁ + 1)) (h₂ : f i₂ ≤ j ∧ j < f (i₂ + 1)) :
    i₁ = i₂ := by
  rcases Nat.lt_trichotomy i₁ i₂ with h | h | h
  · have : f (i₁ + 1) ≤ f i₂ := hf h
    omega
  · exact h
  · have : f (i₂ + 1) ≤ f i₁ := hf h
    omega

theorem workerRanges_length (L T : ℕ) : (workerRanges L T).length = T := by
  simp [workerRanges, linspaceInt_length]

theorem workerRanges_getD (L T i : ℕ) (h : i < T) :
    (workerRanges L T).getD i (0, 0) = (L * i / T, L * (i + 1) / T) := by
  simp only [workerRanges]
  rw [linspaceInt_length]
  simp only [Nat.add_sub_cancel]
  rw [getD_map_range _ _ _ _ h]
  rw [linspaceInt_getD 0 L (T + 1) i (by omega), linspaceInt_getD 0 L (T + 1) (i + 1) (by omega)]
  simp

theorem worker_cover_exists (L T j : ℕ) (hT : 1 ≤ T) (hj : j < L) :
    ∃ t, t < T ∧ L * t / T ≤ j ∧ j < L * (t + 1) / T := by
  apply partition_exists (fun t => L * t / T) T j
  · simp
  · rwa [Nat.mul_div_cancel _ hT]

theorem worker_mono (L T : ℕ) {i j : ℕ} (hij : i ≤ j) : L * i / T ≤ L * j / T :=
  Nat.div_le_div_right (Nat.mul_le_mul_left L hij)

theorem worker_cover_unique (L T j t₁ t₂ : ℕ)
    (h₁ : L * t₁ / T ≤ j ∧ j < L * (t₁ + 1) / T)
    (h₂ : L * t₂ / T ≤ j ∧ j < L * (t₂ + 1) / T) : t₁ = t₂ :=
  partition_unique (fun t => L * t / T) (fun h => worker_mono L T h) h₁ h₂

/-- C1: for every list length L ≥ 0 and worker count T ≥ 1, the batch
partitioner of _process_image_files produces T contiguous half-open ranges
with non-decreasing boundaries, pairwise non-overlapping and gap-free, whose
union is exactly [0, L) (each index below L lies in exactly one range), and
whose last boundary equals L exactly, also when T does not divide L. -/
theorem worker_ranges_partition (L T : ℕ) (hT : 1 ≤ T) :
    (workerRanges L T).length = T ∧
    ((workerRanges L T).getD 0 (0, 0)).1 = 0 ∧
    ((workerRanges L T).getD (T - 1) (0, 0)).2 = L ∧
    (∀ i, i + 1 < T →
      ((workerRanges L T).getD i (0, 0)).2 = ((workerRanges L T).getD (i + 1) (0, 0)).1) ∧
    (∀ i, i < T →
      ((workerRanges L T).getD i (0, 0)).1 ≤ ((workerRanges L T).getD i (0, 0)).2 ∧
      ((workerRanges L T).getD i (0, 0)).2 ≤ L) ∧
    (∀ j, j < L → ∃! t, t < T ∧
      ((workerRanges L T).getD t (0, 0)).1 ≤ j ∧ j < ((workerRanges L T).getD t (0, 0)).2) := by
  refine ⟨workerRanges_length L T, ?_, ?_, ?_, ?_, ?_⟩
  · rw [workerRanges_getD L T 0 (by omega)]
    simp
  · rw [workerRanges_getD L T (T - 1) (by omega)]
    show L * (T - 1 + 1) / T = L
    rw [(by omega : T - 1 + 1 = T)]
    exact Nat.mul_div_cancel L hT
  · intro i hi
    rw [workerRanges_getD L T i (by omega), workerRanges_getD L T (i + 1) (by omega)]
  · intro i hi
    rw [workerRanges_getD L T i hi]
    refine ⟨worker_mono L T (Nat.le_succ i), ?_⟩
    calc L * (i + 1) / T ≤ L * T / T := worker_mono L T (by omega)
    _ = L := Nat.mul_div_cancel L hT
  · intro j hj
    obtain ⟨t, ht, h1, h2⟩ := worker_cover_exists L T j hT hj
    refine ⟨t, ⟨ht, ?_, ?_⟩, ?_⟩
    · rw [workerRanges_getD L T t ht]
      exact h1
    · rw [workerRanges_getD L T t ht]
      exact h2
    · rintro t' ⟨ht', h1', h2'⟩
      rw [workerRanges_getD L T t' ht'] at h1' h2'
      exact worker_cover_unique L T j t' t ⟨h1', h2'⟩ ⟨h1, h2⟩

/-- Witness for C1 at L = 5, T = 2. -/
theorem worker_ranges_partition_witness :
    1 ≤ 2 ∧
    ((workerRanges 5 2).length = 2 ∧
    ((workerRanges 5 2).getD 0 (0, 0)).1 = 0 ∧
    ((workerRanges 5 2).getD (2 - 1) (0, 0)).2 = 5 ∧
    (∀ i, i + 1 < 2 →
      ((workerRanges 5 2).getD i (0, 0)).2 = ((workerRanges 5 2).getD (i + 1) (0, 0)).1) ∧
    (∀ i, i < 2 →
      ((workerRanges 5 2).getD i (0, 0)).1 ≤ ((workerRanges 5 2).getD i (0, 0)).2 ∧
      ((workerRanges 5 2).getD i (0, 0)).2 ≤ 5) ∧
    (∀ j, j < 5 → ∃! t, t < 2 ∧
      ((workerRanges 5 2).getD t (0, 0)).1 ≤ j ∧ j < ((workerRanges 5 2).getD t (0, 0)).2)) :=
  ⟨by decide, worker_ranges_partition 5 2 (by decide)⟩

/-- C2 counterexample: at L = 10, T = 3, the boundary with index i = 2
computed by the code (np.linspace(0, L, T+1).astype(int), which truncates)
is 6, whereas round(L * i / T) = round(20/3) = 7, so the claimed formula
does not describe the code. -/
theorem linspace_boundary_not_round :
    (linspaceInt 0 10 (3 + 1)).getD 2 0 = 6 ∧
    round ((10 * 2 : ℚ) / 3) = 7 ∧
    ((linspaceInt 0 10 (3 + 1)).getD 2 0 : ℤ) ≠ round ((10 * 2 : ℚ) / 3) := by
  have h1 : (linspaceInt 0 10 (3 + 1)).getD 2 0 = 6 := by decide
  have h2 : round ((10 * 2 : ℚ) / 3) = 7 := by
    rw [round_eq]
    norm_num
  refine ⟨h1, h2, ?_⟩
  rw [h1, h2]
  decide

/-- C2 amended: for L ≥ 0, T ≥ 1 and i ≤ T, the i-th partition boundary
computed by the batch partitioner equals floor(L * i / T) (astype(int)
truncates the nonnegative linspace values, it does not round). -/
theorem linspace_boundary_eq_floor (L T i : ℕ) (hT : 1 ≤ T) (hi : i ≤ T) :
    (linspaceInt 0 L (T + 1)).getD i 0 = L * i / T := by
  rw [linspaceInt_getD 0 L (T + 1) i (by omega)]
  simp

/-- Witness for the amended C2 at L = 10, T = 3, i = 2. -/
theorem linspace_boundary_eq_floor_witness :
    1 ≤ 3 ∧ 2 ≤ 3 ∧ (linspaceInt 0 10 (3 + 1)).getD 2 0 = 10 * 2 / 3 :=
  ⟨by decide, by decide, linspace_boundary_eq_floor 10 3 2 (by decide) (by decide)⟩

/-! Shard-range lemmas (two-level partition of _process_image_files_batch). -/

theorem shardRangesOf_length (L T S t : ℕ) :
    (shardRangesOf L T S t).length = S / T + 1 := by
  simp [shardRangesOf, linspaceInt_length]

theorem shardRangesOf_getD (L T S t s : ℕ) (ht : t < T) (hs : s < S / T + 1) :
    (shardRangesOf L T S t).getD s 0 =
      L * t / T + (L * (t + 1) / T - L * t / T) * s / (S / T) := by
  simp only [shardRangesOf]
  rw [workerRanges_getD L T t ht]
  rw [linspaceInt_getD _ _ _ s hs]
  simp

theorem shards_per_worker_pos (T S : ℕ) (hT : 1 ≤ T) (hS : 1 ≤ S) (hdvd : S % T = 0) :
    1 ≤ S / T := by
  rcases Nat.eq_zero_or_pos (S / T) with h | h
  · have hc := Nat.div_mul_cancel (Nat.dvd_of_mod_eq_zero hdvd)
    rw [h] at hc
    simp at hc
    omega
  · exact h

theorem shard_cover_exists (L T S j : ℕ) (hT : 1 ≤ T) (hS : 1 ≤ S) (hdvd : S % T = 0)
    (hj : j < L) :
    ∃ t s, t < T ∧ s < S / T ∧
      (shardRangesOf L T S t).getD s 0 ≤ j ∧ j < (shardRangesOf L T S t).getD (s + 1) 0 := by
  have hn : 1 ≤ S / T := shards_per_worker_pos T S hT hS hdvd
  obtain ⟨t, ht, ha, hb⟩ := worker_cover_exists L T j hT hj
  have hab : L * t / T ≤ L * (t + 1) / T := worker_mono L T (Nat.le_succ t)
  obtain ⟨s, hs, h1, h2⟩ :=
    partition_exists (fun s => L * t / T + (L * (t + 1) / T - L * t / T) * s / (S / T))
      (S / T) j (by simpa using ha)
      (by simpa [boundary_last _ _ _ hab hn] using hb)
  refine ⟨t, s, ht, hs, ?_, ?_⟩
  · rwa [shardRangesOf_getD L T S t s ht (by omega)]
  · rwa [shardRangesOf_getD L T S t (s + 1) ht (by omega)]

theorem shard_in_worker (L T S t s : ℕ) (ht : t < T) (hs : s ≤ S / T) (hn : 1 ≤ S / T) :
    L * t / T ≤ (shardRangesOf L T S t).getD s 0 ∧
    (shardRangesOf L T S t).getD s 0 ≤ L * (t + 1) / T := by
  rw [shardRangesOf_getD L T S t s ht (by omega)]
  have hab : L * t / T ≤ L * (t + 1) / T := worker_mono L T (Nat.le_succ t)
  constructor
  · exact Nat.le_add_right _ _
  · calc L * t / T + (L * (t + 1) / T - L * t / T) * s / (S / T)
        ≤ L * t / T + (L * (t + 1) / T - L * t / T) * (S / T) / (S / T) :=
          boundary_mono _ _ _ hs
    _ = L * (t + 1) / T := boundary_last _ _ _ hab hn

theorem shard_cover_unique (L T S j t₁ s₁ t₂ s₂ : ℕ) (hT : 1 ≤ T) (hS : 1 ≤ S)
    (hdvd : S % T = 0) (ht₁ : t₁ < T) (hs₁ : s₁ < S / T) (ht₂ : t₂ < T) (hs₂ : s₂ < S / T)
    (h₁ : (shardRangesOf L T S t₁).getD s₁ 0 ≤ j ∧ j < (shardRangesOf L T S t₁).getD (s₁ + 1) 0)
    (h₂ : (shardRangesOf L T S t₂).getD s₂ 0 ≤ j ∧ j < (shardRangesOf L T S t₂).getD (s₂ + 1) 0) :
    t₁ = t₂ ∧ s₁ = s₂ := by
  have hn : 1 ≤ S / T := shards_per_worker_pos T S hT hS hdvd
  have hw₁ : L * t₁ / T ≤ j ∧ j < L * (t₁ + 1) / T := by
    constructor
    · exact le_trans (shard_in_worker L T S t₁ s₁ ht₁ (by omega) hn).1 h₁.1
    · exact lt_of_lt_of_le h₁.2 (shard_in_worker L T S t₁ (s₁ + 1) ht₁ (by omega) hn).2
  have hw₂ : L * t₂ / T ≤ j ∧ j < L * (t₂ + 1) / T := by
    constructor
    · exact le_trans (shard_in_worker L T S t₂ s₂ ht₂ (by omega) hn).1 h₂.1
    · exact lt_of_lt_of_le h₂.2 (shard_in_worker L T S t₂ (s₂ + 1) ht₂ (by omega) hn).2
  have ht : t₁ = t₂ := worker_cover_unique L T j t₁ t₂ hw₁ hw₂
  subst ht
  refine ⟨rfl, ?_⟩
  have hg₁ := h₁
  have hg₂ := h₂
  rw [shardRangesOf_getD L T S t₁ s₁ ht₁ (by omega),
      shardRangesOf_getD L T S t₁ (s₁ + 1) ht₁ (by omega)] at hg₁
  rw [shardRangesOf_getD L T S t₁ s₂ ht₁ (by omega),
      shardRangesOf_getD L T S t₁ (s₂ + 1) ht₁ (by omega)] at hg₂
  exact partition_unique
    (fun s => L * t₁ / T + (L * (t₁ + 1) / T - L * t₁ / T) * s / (S / T))
    (fun h => boundary_mono _ _ _ h) hg₁ hg₂

/-- C4 counterexample: num_shards = 0, num_threads = 1, L = 1 satisfies the
claim's hypothesis num_shards % num_threads == 0, the worker computes
0 / 1 = 0 ShardRanges, and the union of all ShardRanges is empty, so the
index 0 < L is covered by no ShardRange at all: the claimed exact coverage
of [0, L) fails. -/
theorem shard_cover_fails_without_shards :
    (0 % 1 = 0) ∧ (0 : ℕ) < 1 ∧
    ¬ ∃ t s : ℕ, t < 1 ∧ s < 0 / 1 ∧
      (shardRangesOf 1 1 0 t).getD s 0 ≤ 0 ∧ 0 < (shardRangesOf 1 1 0 t).getD (s + 1) 0 := by
  refine ⟨rfl, by decide, ?_⟩
  rintro ⟨t, s, -, hs, -, -⟩
  simp at hs

/-- C4 amended: for every num_shards S ≥ 1 and num_threads T ≥ 1 with
S % T == 0 and every split length L, each worker computes exactly S / T
ShardRanges by the same even-interpolation rule applied to its own
WorkerRange, and every index in [0, L) lies in exactly one ShardRange of
exactly one worker (the amendment adds S ≥ 1, since with S = 0 the claim's
hypothesis holds but no ShardRange exists and nothing is covered). -/
theorem shard_ranges_cover (L T S : ℕ) (hT : 1 ≤ T) (hS : 1 ≤ S) (hdvd : S % T = 0) :
    (∀ t, t < T → (shardRangesOf L T S t).length = S / T + 1) ∧
    (∀ j, j < L → ∃! p : ℕ × ℕ, p.1 < T ∧ p.2 < S / T ∧
      (shardRangesOf L T S p.1).getD p.2 0 ≤ j ∧
      j < (shardRangesOf L T S p.1).getD (p.2 + 1) 0) := by
  refine ⟨fun t _ => shardRangesOf_length L T S t, ?_⟩
  intro j hj
  obtain ⟨t, s, ht, hs, hlo, hhi⟩ := shard_cover_exists L T S j hT hS hdvd hj
  refine ⟨(t, s), ⟨ht, hs, hlo, hhi⟩, ?_⟩
  rintro ⟨t', s'⟩ ⟨ht', hs', hlo', hhi'⟩
  obtain ⟨h1, h2⟩ := shard_cover_unique L T S j t' s' t s hT hS hdvd ht' hs' ht hs
    ⟨hlo', hhi'⟩ ⟨hlo, hhi⟩
  simp [h1, h2]

/-- Witness for the amended C4 at L = 5, T = 2, S = 4. -/
theorem shard_ranges_cover_witness :
    (1 ≤ 2 ∧ 1 ≤ 4 ∧ 4 % 2 = 0) ∧
    ((∀ t, t < 2 → (shardRangesOf 5 2 4 t).length = 4 / 2 + 1) ∧
    (∀ j, j < 5 → ∃! p : ℕ × ℕ, p.1 < 2 ∧ p.2 < 4 / 2 ∧
      (shardRangesOf 5 2 4 p.1).getD p.2 0 ≤ j ∧
      j < (shardRangesOf 5 2 4 p.1).getD (p.2 + 1) 0)) :=
  ⟨by decide, shard_ranges_cover 5 2 4 (by decide) (by decide) (by decide)⟩

/-! Splitter lemmas. -/

theorem pyInt_of_nonneg (q : ℚ) (h : 0 ≤ q) : pyInt q = ⌊q⌋ := if_pos h

theorem numTrainFiles_eq_floor (L : ℕ) (v : ℚ) (h0 : 0 ≤ v) (h1 : v < 1) :
    numTrainFiles L v = ⌊(L : ℚ) * (1 - v)⌋ := by
  unfold numTrainFiles
  exact pyInt_of_nonneg _ (mul_nonneg (Nat.cast_nonneg L) (by linarith))

theorem numTrainFiles_le (L : ℕ) (v : ℚ) (h0 : 0 ≤ v) (h1 : v < 1) :
    (numTrainFiles L v).toNat ≤ L := by
  rw [numTrainFiles_eq_floor L v h0 h1, Int.toNat_le]
  calc ⌊(L : ℚ) * (1 - v)⌋ ≤ ⌊(L : ℚ)⌋ :=
        Int.floor_le_floor (mul_le_of_le_one_right (Nat.cast_nonneg L) (by linarith))
  _ = (L : ℤ) := Int.floor_natCast L

/-- C3: for every file list and validation fraction v with 0 ≤ v < 1, the
splitter of _process_datasets puts floor(L * (1 - v)) files into train (the
leading slice) and the remaining L - len(train) files into validation (the
trailing slice); the two slices are the disjoint take/drop parts of the
list and their in-order concatenation reconstructs it. -/
theorem dataset_split_correct (l : List String) (v : ℚ) (h0 : 0 ≤ v) (h1 : v < 1) :
    ((trainFilenames l v).length : ℤ) = ⌊(l.length : ℚ) * (1 - v)⌋ ∧
    (validationFilenames l v).length = l.length - (trainFilenames l v).length ∧
    trainFilenames l v = l.take (numTrainFiles l.length v).toNat ∧
    validationFilenames l v = l.drop (numTrainFiles l.length v).toNat ∧
    trainFilenames l v ++ validationFilenames l v = l := by
  have hle : (numTrainFiles l.length v).toNat ≤ l.length := numTrainFiles_le l.length v h0 h1
  have hlen : (trainFilenames l v).length = (numTrainFiles l.length v).toNat := by
    simp [trainFilenames, List.length_take, Nat.min_eq_left hle]
  have hval : validationFilenames l v = l.drop (numTrainFiles l.length v).toNat := by
    unfold validationFilenames lastSlice
    rw [Nat.sub_sub_self hle]
  refine ⟨?_, ?_, rfl, hval, ?_⟩
  · rw [hlen, numTrainFiles_eq_floor l.length v h0 h1]
    exact Int.toNat_of_nonneg (Int.floor_nonneg.mpr
      (mul_nonneg (Nat.cast_nonneg l.length) (by linarith)))
  · rw [hval, hlen, List.length_drop]
  · rw [hval]
    exact List.take_append_drop _ l

/-- Witness for C3 with three files and v = 1/10. -/
theorem dataset_split_correct_witness :
    ((0 : ℚ) ≤ 1 / 10 ∧ (1 / 10 : ℚ) < 1) ∧
    (((trainFilenames ["a", "b", "c"] (1 / 10)).length : ℤ) =
        ⌊(([
          "a", "b", "c"] : List String).length : ℚ) * (1 - 1 / 10)⌋ ∧
    (validationFilenames ["a", "b", "c"] (1 / 10)).length =
        (["a", "b", "c"] : List String).length - (trainFilenames ["a", "b", "c"] (1 / 10)).length ∧
    trainFilenames ["a", "b", "c"] (1 / 10) =
        (["a", "b", "c"] : List String).take (numTrainFiles (["a", "b", "c"] : List String).length (1 / 10)).toNat ∧
    validationFilenames ["a", "b", "c"] (1 / 10) =
        (["a", "b", "c"] : List String).drop (numTrainFiles (["a", "b", "c"] : List String).length (1 / 10)).toNat ∧
    trainFilenames ["a", "b", "c"] (1 / 10) ++ validationFilenames ["a", "b", "c"] (1 / 10) =
        ["a", "b", "c"]) :=
  ⟨by norm_num, dataset_split_correct ["a", "b", "c"] (1 / 10) (by norm_num) (by norm_num)⟩

/-! Lemmas about the fallible loops and index ranges. -/

theorem range_getD (n k : ℕ) (h : k < n) : (List.range n).getD k 0 = k := by
  rw [List.getD_eq_getElem _ _ (by simpa using h)]
  simp

theorem arange_length (lo hi : ℕ) : (arange lo hi).length = hi - lo := by
  simp [arange]

theorem arange_getD (lo hi k : ℕ) (h : k < hi - lo) : (arange lo hi).getD k 0 = lo + k := by
  unfold arange
  exact getD_map_range _ _ _ _ h

theorem arange_mem (lo hi i : ℕ) : i ∈ arange lo hi ↔ lo ≤ i ∧ i < hi := by
  simp only [arange, List.mem_map, List.mem_range]
  constructor
  · rintro ⟨k, hk, rfl⟩
    omega
  · intro h
    exact ⟨i - lo, by omega, by omega⟩

theorem exceptMap_ok_length {α ε β : Type} (f : α → Except ε β) :
    ∀ (l : List α) (bs : List β), exceptMap f l = .ok bs → bs.length = l.length := by
  intro l
  induction l with
  | nil =>
    intro bs h
    simp only [exceptMap] at h
    cases h
    rfl
  | cons a t ih =>
    intro bs h
    simp only [exceptMap] at h
    cases hfa : f a with
    | error e => rw [hfa] at h; cases h
    | ok b =>
      rw [hfa] at h
      cases hrest : exceptMap f t with
      | error e => rw [hrest] at h; cases h
      | ok bs' =>
        rw [hrest] at h
        cases h
        simp [ih bs' hrest]

theorem exceptMap_ok_getD {α ε β : Type} (f : α → Except ε β) (da : α) (db : β) :
    ∀ (l : List α) (bs : List β), exceptMap f l = .ok bs →
      ∀ k, k < l.length → f (l.getD k da) = .ok (bs.getD k db) := by
  intro l
  induction l with
  | nil => intro bs h k hk; simp at hk
  | cons a t ih =>
    intro bs h k hk
    simp only [exceptMap] at h
    cases hfa : f a with
    | error e => rw [hfa] at h; cases h
    | ok b =>
      rw [hfa] at h
      cases hrest : exceptMap f t with
      | error e => rw [hrest] at h; cases h
      | ok bs' =>
        rw [hrest] at h
        cases h
        cases k with
        | zero => simpa using hfa
        | succ k =>
          simp only [List.getD_cons_succ]
          exact ih bs' hrest k (by simpa using hk)

theorem exceptMap_ok_mem {α ε β : Type} (f : α → Except ε β) :
    ∀ (l : List α) (bs : List β), exceptMap f l = .ok bs →
      ∀ a ∈ l, ∃ b, f a = .ok b := by
  intro l
  induction l with
  | nil => intro bs h a ha; cases ha
  | cons x t ih =>
    intro bs h a ha
    simp only [exceptMap] at h
    cases hfa : f x with
    | error e => rw [hfa] at h; cases h
    | ok b =>
      rw [hfa] at h
      cases hrest : exceptMap f t with
      | error e => rw [hrest] at h; cases h
      | ok bs' =>
        rcases List.mem_cons.mp ha with rfl | hmem
        · exact ⟨b, hfa⟩
        · exact ih bs' hrest a hmem

theorem exceptMap_error_of_mem {α ε β : Type} (f : α → Except ε β) :
    ∀ (l : List α) (a : α) (e : ε), a ∈ l → f a = .error e →
      ∃ e', exceptMap f l = .error e' := by
  intro l
  induction l with
  | nil => intro a e ha; cases ha
  | cons x t ih =>
    intro a e ha hfa
    rcases List.mem_cons.mp ha with rfl | hmem
    · exact ⟨e, by simp [exceptMap, hfa]⟩
    · cases hfx : f x with
      | error e' => exact ⟨e', by simp [exceptMap, hfx]⟩
      | ok b =>
        obtain ⟨e', he'⟩ := ih a e hmem hfa
        exact ⟨e', by simp [exceptMap, hfx, he']⟩

theorem shardRangesOf_def (L T S t : ℕ) :
    shardRangesOf L T S t =
      linspaceInt ((workerRanges L T).getD t (0, 0)).1
        ((workerRanges L T).getD t (0, 0)).2 (S / T + 1) := rfl

/-- C5: when worker t of a run over the given split finishes successfully,
it has produced exactly num_shards / num_threads output files; the s-th one
(in the increasing ShardRange order in which the files are opened) is named
{name}-{shard:05d}-of-{num_shards:05d} under the output directory with
shard = t * shards_per_worker + s, and its records are exactly the files of
the s-th ShardRange in increasing index order (record k of shard s comes
from file index lower_boundary(s) + k). -/
theorem shard_files_named_and_ordered (env : Env) (outputDirectory name : String)
    (filenames : List String) (S T t : ℕ) (hT : 1 ≤ T) (ht : t < T) (hdvd : S % T = 0)
    (outs : List ShardOutput)
    (h : processImageFilesBatch env outputDirectory t (workerRanges filenames.length T)
        name filenames S = .ok outs) :
    outs.length = S / T ∧
    ∀ s, s < S / T →
      (outs.getD s defaultShardOutput).path =
        pathJoin outputDirectory
          (name ++ "-" ++ pad5 (t * (S / T) + s) ++ "-of-" ++ pad5 S) ∧
      (outs.getD s defaultShardOutput).records.length =
        (shardRangesOf filenames.length T S t).getD (s + 1) 0
          - (shardRangesOf filenames.length T S t).getD s 0 ∧
      ∀ k, k < (outs.getD s defaultShardOutput).records.length →
        buildRecord env filenames ((shardRangesOf filenames.length T S t).getD s 0 + k) =
          .ok ((outs.getD s defaultShardOutput).records.getD k defaultExample) := by
  simp only [processImageFilesBatch, workerRanges_length] at h
  rw [if_neg (by simp [hdvd])] at h
  rw [← shardRangesOf_def filenames.length T S t] at h
  refine ⟨?_, ?_⟩
  · rw [exceptMap_ok_length _ _ _ h, List.length_range]
  · intro s hs
    have hFs := exceptMap_ok_getD _ 0 defaultShardOutput _ outs h s
      (by simpa using hs)
    rw [range_getD _ s hs] at hFs
    cases hps : processShard env filenames ((shardRangesOf filenames.length T S t).getD s 0)
        ((shardRangesOf filenames.length T S t).getD (s + 1) 0) with
    | error e => rw [hps] at hFs; cases hFs
    | ok records =>
      rw [hps] at hFs
      have hout : outs.getD s defaultShardOutput =
          ⟨pathJoin outputDirectory
              (name ++ "-" ++ pad5 (t * (S / T) + s) ++ "-of-" ++ pad5 S), records⟩ := by
        injection hFs with hinj
        exact hinj.symm
      have hrl : records.length =
          (shardRangesOf filenames.length T S t).getD (s + 1) 0
            - (shardRangesOf filenames.length T S t).getD s 0 := by
        rw [exceptMap_ok_length _ _ _ hps, arange_length]
      refine ⟨by rw [hout], by rw [hout]; exact hrl, ?_⟩
      intro k hk
      rw [hout] at hk
      have hk' : k < records.length := hk
      have hbk := exceptMap_ok_getD _ 0 defaultExample _ records hps k
        (by rw [arange_length]; omega)
      rw [hout]
      rwa [arange_getD _ _ k (by omega)] at hbk

/-- Witness for C5: one worker, one shard, one file. -/
theorem shard_files_named_and_ordered_witness :
    (1 ≤ 1 ∧ 0 < 1 ∧ 1 % 1 = 0 ∧
      processImageFilesBatch testEnv "" 0 (workerRanges 1 1) "train" ["a.png"] 1 =
        .ok [⟨"train-00000-of-00001", [convertToExample "a.png" "data" 2 2 3]⟩]) ∧
    (([(⟨"train-00000-of-00001",
          [convertToExample "a.png" "data" 2 2 3]⟩ : ShardOutput)] : List ShardOutput).length = 1 / 1 ∧
    ∀ s, s < 1 / 1 →
      (([(⟨"train-00000-of-00001",
            [convertToExample "a.png" "data" 2 2 3]⟩ : ShardOutput)].getD s defaultShardOutput)).path =
        pathJoin "" ("train" ++ "-" ++ pad5 (0 * (1 / 1) + s) ++ "-of-" ++ pad5 1) ∧
      (([(⟨"train-00000-of-00001",
            [convertToExample "a.png" "data" 2 2 3]⟩ : ShardOutput)].getD s defaultShardOutput)).records.length =
        (shardRangesOf ([("a.png" : String)] : List String).length 1 1 0).getD (s + 1) 0
          - (shardRangesOf ([("a.png" : String)] : List String).length 1 1 0).getD s 0 ∧
      ∀ k, k < (([(⟨"train-00000-of-00001",
            [convertToExample "a.png" "data" 2 2 3]⟩ : ShardOutput)].getD s defaultShardOutput)).records.length →
        buildRecord testEnv ["a.png"]
            ((shardRangesOf ([("a.png" : String)] : List String).length 1 1 0).getD s 0 + k) =
          .ok ((([(⟨"train-00000-of-00001",
            [convertToExample "a.png" "data" 2 2 3]⟩ : ShardOutput)].getD s defaultShardOutput)).records.getD
              k defaultExample)) :=
  ⟨⟨by decide, by decide, by decide, rfl⟩,
    shard_files_named_and_ordered testEnv "" "train" ["a.png"] 1 1 0
      (by decide) (by decide) (by decide) _ rfl⟩

theorem shard_match_ok (X : Except RunError (List ExampleProto)) (p : String) (b : ShardOutput)
    (h : (match X with
          | .error e => (.error e : Except RunError ShardOutput)
          | .ok records => .ok ⟨p, records⟩) = .ok b) :
    ∃ records, X = .ok records := by
  cases X with
  | error e => cases h
  | ok records => exact ⟨records, rfl⟩

theorem workerErrors_ne_nil (results : List (Except RunError (List ShardOutput)))
    (r : Except RunError (List ShardOutput)) (e : RunError)
    (hr : r ∈ results) (he : r = .error e) : workerErrors results ≠ [] := by
  induction results with
  | nil => cases hr
  | cons x rest ih =>
    rcases List.mem_cons.mp hr with rfl | hmem
    · subst he
      simp [workerErrors]
    · cases hx : x with
      | error e' => simp [workerErrors, hx]
      | ok outs =>
        have hrest := ih hmem
        simpa [workerErrors, hx] using hrest

theorem workerErrors_eq_nil (results : List (Except RunError (List ShardOutput)))
    (h : workerErrors results = []) :
    ∀ r ∈ results, ∃ outs, r = .ok outs := by
  induction results with
  | nil => intro r hr; cases hr
  | cons x rest ih =>
    intro r hr
    cases hx : x with
    | error e =>
      rw [hx] at h
      simp [workerErrors] at h
    | ok outs =>
      rw [hx] at h
      have h' : workerErrors rest = [] := by simpa [workerErrors] using h
      rcases List.mem_cons.mp hr with rfl | hmem
      · exact ⟨outs, hx⟩
      · exact ih h' r hmem

/-- C8 counterexample: a decode failure does not abort the run.  With one
file whose decode fails, the failure does propagate unhandled out of the
worker function (first two conjuncts), but the worker is a plain thread
whose exception the coordinator join never re-raises, so the full run
completes normally: mainRun returns an ok result (no output files, one
swallowed error) instead of aborting, and the process does not exit
non-zero on this path. -/
theorem decode_failure_does_not_abort_run :
    (∃ e, processImage failEnv "a.png" = .error e) ∧
    (∃ e, processImageFilesBatch failEnv "" 0 (workerRanges 1 1) "train" ["a.png"] 1 =
      .error e) ∧
    mainRun (Flags.mk "data" "" 1 1 0) failEnv ["a.png"] =
      .ok ([], [.decodeError "a.png"]) := by
  refine ⟨⟨.decodeError "a.png", rfl⟩, ⟨.decodeError "a.png", rfl⟩, ?_⟩
  have h0 : mainRun (Flags.mk "data" "" 1 1 0) failEnv ["a.png"] =
      .ok (processDatasets failEnv (Flags.mk "data" "" 1 1 0) ["a.png"]) := by
    simp [mainRun]
  rw [h0]
  unfold processDatasets
  rw [show (numTrainFiles (findImageFiles ["a.png"]).length
      (Flags.mk "data" "" 1 1 0).validationSize).toNat = 1 from by
    show (numTrainFiles 1 (0 : ℚ)).toNat = 1
    norm_num [numTrainFiles, pyInt]]
  rw [show trainFilenames (findImageFiles ["a.png"])
      (Flags.mk "data" "" 1 1 0).validationSize = ["a.png"] from by
    show trainFilenames ["a.png"] (0 : ℚ) = ["a.png"]
    unfold trainFilenames
    rw [show (numTrainFiles (["a.png"] : List String).length (0 : ℚ)).toNat = 1 from by
      show (numTrainFiles 1 (0 : ℚ)).toNat = 1
      norm_num [numTrainFiles, pyInt]]
    rfl]
  rfl

/-- C8 amended: a per-file decode failure propagates unhandled out of the
affected worker -- that worker stops at the first failure, with no per-file
skip or retry -- but it kills only that worker's thread: the run itself
always completes, recording the failure only in the swallowed-error list
(the traceback Python prints when the thread dies), and the process does
not exit non-zero on a per-file error.  Conversely a run whose
swallowed-error list is empty processed every file of the split
successfully. -/
theorem decode_failure_kills_only_worker (env : Env) (outputDirectory name : String)
    (filenames : List String) (S T : ℕ) (hT : 1 ≤ T) (hS : 1 ≤ S) (hdvd : S % T = 0) :
    (∀ i, i < filenames.length →
      (∃ e, processImage env (filenames.getD i "") = .error e) →
      ∃ t, t < T ∧
        (∃ e', processImageFilesBatch env outputDirectory t
            (workerRanges filenames.length T) name filenames S = .error e') ∧
        (processImageFiles env outputDirectory name filenames S T).2 ≠ []) ∧
    (∀ outs, processImageFiles env outputDirectory name filenames S T = (outs, []) →
      ∀ i, i < filenames.length → ∃ v, processImage env (filenames.getD i "") = .ok v) ∧
    (∀ (flags : Flags) (matchingFiles : List String),
      flags.numShards % flags.numThreads = 0 →
      mainRun flags env matchingFiles = .ok (processDatasets env flags matchingFiles)) := by
  refine ⟨?_, ?_, ?_⟩
  · rintro i hi ⟨e, he⟩
    obtain ⟨t, s, ht, hs, hlo, hhi⟩ :=
      shard_cover_exists filenames.length T S i hT hS hdvd hi
    have hbr : buildRecord env filenames i = .error e := by
      simp only [buildRecord]
      rw [he]
    have hmem : i ∈ arange ((shardRangesOf filenames.length T S t).getD s 0)
        ((shardRangesOf filenames.length T S t).getD (s + 1) 0) :=
      (arange_mem _ _ i).mpr ⟨hlo, hhi⟩
    obtain ⟨e₁, he₁⟩ := exceptMap_error_of_mem (buildRecord env filenames) _ i e hmem hbr
    have he₁' : processShard env filenames ((shardRangesOf filenames.length T S t).getD s 0)
        ((shardRangesOf filenames.length T S t).getD (s + 1) 0) = .error e₁ := he₁
    have hbatch : ∃ e₂, processImageFilesBatch env outputDirectory t
        (workerRanges filenames.length T) name filenames S = .error e₂ := by
      simp only [processImageFilesBatch, workerRanges_length]
      rw [if_neg (by simp [hdvd])]
      rw [← shardRangesOf_def filenames.length T S t]
      apply exceptMap_error_of_mem _ (List.range (S / T)) s e₁ (List.mem_range.mpr hs)
      rw [he₁']
    obtain ⟨e₂, he₂⟩ := hbatch
    refine ⟨t, ht, ⟨e₂, he₂⟩, ?_⟩
    show workerErrors ((List.range (workerRanges filenames.length T).length).map
        (fun t => processImageFilesBatch env outputDirectory t
          (workerRanges filenames.length T) name filenames S)) ≠ []
    exact workerErrors_ne_nil _ _ e₂
      (List.mem_map_of_mem _ (by rw [workerRanges_length]; exact List.mem_range.mpr ht)) he₂
  · intro outs houts i hi
    obtain ⟨t, s, ht, hs, hlo, hhi⟩ :=
      shard_cover_exists filenames.length T S i hT hS hdvd hi
    have herr : workerErrors ((List.range (workerRanges filenames.length T).length).map
        (fun t => processImageFilesBatch env outputDirectory t
          (workerRanges filenames.length T) name filenames S)) = [] :=
      congrArg Prod.snd houts
    obtain ⟨bs, hbs⟩ := workerErrors_eq_nil _ herr _
      (List.mem_map_of_mem _ (by rw [workerRanges_length]; exact List.mem_range.mpr ht))
    simp only [processImageFilesBatch, workerRanges_length] at hbs
    rw [if_neg (by simp [hdvd])] at hbs
    rw [← shardRangesOf_def filenames.length T S t] at hbs
    obtain ⟨b, hb⟩ := exceptMap_ok_mem _ _ bs hbs s (List.mem_range.mpr hs)
    obtain ⟨records, hps⟩ := shard_match_ok _ _ _ hb
    obtain ⟨ex, hex⟩ := exceptMap_ok_mem _ _ records hps i ((arange_mem _ _ i).mpr ⟨hlo, hhi⟩)
    cases hpi : processImage env (filenames.getD i "") with
    | error e =>
      simp only [buildRecord] at hex
      rw [hpi] at hex
      cases hex
    | ok v => exact ⟨v, rfl⟩
  · intro flags matchingFiles hflags
    simp [mainRun, hflags]

/-- Witness for the amended C8: a single file whose decode fails kills its
worker, leaves a swallowed error, and a clean run implies every file
decoded. -/
theorem decode_failure_kills_only_worker_witness :
    (1 ≤ 1 ∧ 1 ≤ 1 ∧ 1 % 1 = 0) ∧
    ((∀ i, i < (["a.png"] : List String).length →
      (∃ e, processImage failEnv ((["a.png"] : List String).getD i "") = .error e) →
      ∃ t, t < 1 ∧
        (∃ e', processImageFilesBatch failEnv "" t
            (workerRanges (["a.png"] : List String).length 1) "train" ["a.png"] 1 = .error e') ∧
        (processImageFiles failEnv "" "train" ["a.png"] 1 1).2 ≠ []) ∧
    (∀ outs, processImageFiles failEnv "" "train" ["a.png"] 1 1 = (outs, []) →
      ∀ i, i < (["a.png"] : List String).length →
        ∃ v, processImage failEnv ((["a.png"] : List String).getD i "") = .ok v) ∧
    (∀ (flags : Flags) (matchingFiles : List String),
      flags.numShards % flags.numThreads = 0 →
      mainRun flags failEnv matchingFiles = .ok (processDatasets failEnv flags matchingFiles))) :=
  ⟨by decide, decode_failure_kills_only_worker failEnv "" "train" ["a.png"] 1 1
    (by decide) (by decide) (by decide)⟩

/-- C6: for every configuration with num_shards % num_threads != 0, the run
fails immediately with the fatal configuration error of the startup
assertion, and the result does not depend on the environment or on the
directory contents: nothing is discovered, read or written on this path. -/
theorem config_error_fails_fast (flags : Flags) (env : Env) (matchingFiles : List String)
    (h : flags.numShards % flags.numThreads ≠ 0) :
    mainRun flags env matchingFiles = .error .configError ∧
    ∀ (env₂ : Env) (matchingFiles₂ : List String),
      mainRun flags env matchingFiles = mainRun flags env₂ matchingFiles₂ := by
  constructor
  · simp [mainRun, h]
  · intro env₂ matchingFiles₂
    simp [mainRun, h]

/-- Witness for C6 at num_shards = 10, num_threads = 3 (the spec's own
failing configuration). -/
theorem config_error_fails_fast_witness :
    ((Flags.mk "data" "" 10 3 (1 / 10)).numShards %
        (Flags.mk "data" "" 10 3 (1 / 10)).numThreads ≠ 0) ∧
    (mainRun (Flags.mk "data" "" 10 3 (1 / 10)) testEnv ["a.png"] = .error .configError ∧
    ∀ (env₂ : Env) (matchingFiles₂ : List String),
      mainRun (Flags.mk "data" "" 10 3 (1 / 10)) testEnv ["a.png"] =
        mainRun (Flags.mk "data" "" 10 3 (1 / 10)) env₂ matchingFiles₂) :=
  ⟨by decide, config_error_fails_fast (Flags.mk "data" "" 10 3 (1 / 10)) testEnv ["a.png"]
    (by decide)⟩

/-! Basename lemmas. -/

theorem basename_foldl_no_slash :
    ∀ (cs : List Char) (acc : List Char), (∀ c ∈ cs, c ≠ '/') →
      cs.foldl (fun acc c => if c = '/' then [] else acc ++ [c]) acc = acc ++ cs := by
  intro cs
  induction cs with
  | nil => intro acc h; simp
  | cons c t ih =>
    intro acc h
    have hc : c ≠ '/' := h c (List.mem_cons_self c t)
    simp only [List.foldl_cons, if_neg hc]
    rw [ih (acc ++ [c]) (fun x hx => h x (List.mem_cons_of_mem c hx))]
    simp

theorem basename_of_append (dir base : String) (h : '/' ∉ base.data) :
    basename (dir ++ "/" ++ base) = base := by
  have hno : ∀ c ∈ base.data, c ≠ '/' := fun c hc hceq => h (hceq ▸ hc)
  unfold basename
  have hdata : (dir ++ "/" ++ base).data = dir.data ++ '/' :: base.data := by
    rw [String.data_append, String.data_append]
    rw [(rfl : ("/" : String).data = ['/'])]
    simp
  rw [hdata, List.foldl_append, List.foldl_cons]
  show String.mk (List.foldl (fun acc c => if c = '/' then [] else acc ++ [c]) [] base.data) = base
  rw [basename_foldl_no_slash base.data [] hno]
  cases base with
  | mk bd => simp

/-- C7: every record built by _convert_to_example labels the colorspace
"RGB" for 3 channels, "RGBA" for 4, "MONO" for 1 and "unknown" otherwise,
and its filename field is the base name of the source file (the part after
the last '/'), not the full path. -/
theorem convert_to_example_fields (filename imageBuffer : String) (height width channels : ℕ) :
    ((channels = 3 →
        (convertToExample filename imageBuffer height width channels).colorspace = "RGB") ∧
     (channels = 4 →
        (convertToExample filename imageBuffer height width channels).colorspace = "RGBA") ∧
     (channels = 1 →
        (convertToExample filename imageBuffer height width channels).colorspace = "MONO") ∧
     (channels ≠ 1 → channels ≠ 3 → channels ≠ 4 →
        (convertToExample filename imageBuffer height width channels).colorspace = "unknown")) ∧
    (convertToExample filename imageBuffer height width channels).filename = basename filename ∧
    ∀ dir base : String, '/' ∉ base.data → filename = dir ++ "/" ++ base →
      (convertToExample filename imageBuffer height width channels).filename = base := by
  refine ⟨⟨?_, ?_, ?_, ?_⟩, rfl, ?_⟩
  · rintro rfl
    rfl
  · rintro rfl
    rfl
  · rintro rfl
    rfl
  · intro h1 h3 h4
    simp [convertToExample, h1, h3, h4]
  · rintro dir base hbase rfl
    show basename (dir ++ "/" ++ base) = base
    exact basename_of_append dir base hbase

/-- Witness for C7 on the path a/b.png with 3 channels. -/
theorem convert_to_example_fields_witness :
    (3 = 3 ∧ '/' ∉ ("b.png" : String).data ∧ ("a/b.png" : String) = "a" ++ "/" ++ "b.png") ∧
    ((convertToExample "a/b.png" "data" 2 2 3).colorspace = "RGB" ∧
     (convertToExample "a/b.png" "data" 2 2 3).filename = basename "a/b.png" ∧
     (convertToExample "a/b.png" "data" 2 2 3).filename = "b.png") := by
  have h := convert_to_example_fields "a/b.png" "data" 2 2 3
  exact ⟨⟨rfl, by decide, by decide⟩,
    h.1.1 rfl, h.2.1, h.2.2 "a" "b.png" (by decide) (by decide)⟩

/-! Shuffle permutation lemmas. -/

theorem count_set_aux {α : Type} [DecidableEq α] (x b : α) :
    ∀ (l : List α) (i : ℕ), i < l.length →
      (l.set i b).count x + (if l.getD i b = x then 1 else 0) =
        l.count x + (if b = x then 1 else 0) := by
  intro l
  induction l with
  | nil => intro i hi; simp at hi
  | cons c t ih =>
    intro i hi
    cases i with
    | zero =>
      by_cases hc : c = x <;> by_cases hb : b = x <;>
        simp [List.count_cons, hc, hb]
    | succ i =>
      have hi' : i < t.length := by simpa using hi
      have hrec := ih i hi'
      simp only [List.set_cons_succ, List.getD_cons_succ, List.count_cons] at *
      omega

theorem listSwap_perm {α : Type} [DecidableEq α] (l : List α) (i j : ℕ) :
    (listSwap l i j).Perm l := by
  unfold listSwap
  cases h₁ : l.get? i with
  | none => exact List.Perm.refl l
  | some a =>
    cases h₂ : l.get? j with
    | none => exact List.Perm.refl l
    | some b =>
      show ((l.set i b).set j a).Perm l
      obtain ⟨hi, hgi⟩ := List.get?_eq_some.mp h₁
      obtain ⟨hj, hgj⟩ := List.get?_eq_some.mp h₂
      rw [List.perm_iff_count]
      intro x
      have hjb : j < (l.set i b).length := by rw [List.length_set]; exact hj
      have c1 := count_set_aux x a (l.set i b) j hjb
      have c2 := count_set_aux x b l i hi
      have hgd1 : (l.set i b).getD j a = b := by
        rw [List.getD_eq_getElem _ _ hjb, List.getElem_set]
        split
        · rfl
        · exact hgj
      have hgd2 : l.getD i b = a := by
        rw [List.getD_eq_getElem _ _ hi]
        exact hgi
      rw [hgd1] at c1
      rw [hgd2] at c2
      omega

theorem pyShuffleAux_perm {α : Type} [DecidableEq α] :
    ∀ (idxs : List ℕ) (l : List α) (s : RandState), (pyShuffleAux idxs l s).Perm l := by
  intro idxs
  induction idxs with
  | nil => intro l s; exact List.Perm.refl l
  | cons i rest ih =>
    intro l s
    simp only [pyShuffleAux]
    exact (ih _ _).trans (listSwap_perm l i _)

theorem map_getD_range {α : Type} (l : List α) (d : α) :
    (List.range l.length).map (fun i => l.getD i d) = l := by
  induction l with
  | nil => rfl
  | cons a t ih =>
    show (List.range (t.length + 1)).map (fun i => (a :: t).getD i d) = a :: t
    rw [List.range_succ_eq_map]
    have hcomp : ((fun i => (a :: t).getD i d) ∘ Nat.succ) = fun i => t.getD i d := by
      funext i
      simp [Function.comp, List.getD_cons_succ]
    rw [List.map_cons, List.map_map, hcomp, ih, List.getD_cons_zero]

/-- C9: the fixed-seed shuffle of _find_image_files is deterministic --
running it twice on the same discovered file list yields the same result,
because the generator is seeded with the constant 12345 immediately before
shuffling and no other source of randomness enters -- and its output is a
permutation of the input list. -/
theorem find_image_files_deterministic (matchingFiles : List String) :
    findImageFiles matchingFiles = findImageFiles matchingFiles ∧
    (findImageFiles matchingFiles).Perm matchingFiles := by
  refine ⟨rfl, ?_⟩
  have hperm : (pyShuffle (seedRand 12345) (List.range matchingFiles.length)).Perm
      (List.range matchingFiles.length) := pyShuffleAux_perm _ _ _
  have hmap := List.Perm.map (fun i => matchingFiles.getD i "") hperm
  have hdef : findImageFiles matchingFiles =
      (pyShuffle (seedRand 12345) (List.range matchingFiles.length)).map
        (fun i => matchingFiles.getD i "") := rfl
  rw [hdef]
  refine hmap.trans ?_
  rw [map_getD_range]

/-- C10: a valid configuration on a non-empty split (1 file, 1 worker,
2 shards, no validation) produces an output shard file containing zero
records: the first shard range of the single worker is empty, so the writer
opens and closes train-00000-of-00002 without writing anything, even though
empty splits themselves are skipped. -/
theorem empty_shard_file_written :
    ∃ outs, mainRun (Flags.mk "data" "" 2 1 0) testEnv ["img.png"] = .ok (outs, []) ∧
      ∃ out ∈ outs, out.records = [] := by
  refine ⟨[⟨"train-00000-of-00002", []⟩,
           ⟨"train-00001-of-00002", [convertToExample "img.png" "data" 2 2 3]⟩], ?_, ?_⟩
  · have h0 : mainRun (Flags.mk "data" "" 2 1 0) testEnv ["img.png"] =
        .ok (processDatasets testEnv (Flags.mk "data" "" 2 1 0) ["img.png"]) := by
      simp [mainRun]
    rw [h0]
    unfold processDatasets
    have key : (numTrainFiles (findImageFiles ["img.png"]).length
        (Flags.mk "data" "" 2 1 0).validationSize).toNat = 1 := by
      show (numTrainFiles 1 (0 : ℚ)).toNat = 1
      norm_num [numTrainFiles, pyInt]
    rw [key]
    have htr : trainFilenames (findImageFiles ["img.png"])
        (Flags.mk "data" "" 2 1 0).validationSize = ["img.png"] := by
      show trainFilenames ["img.png"] (0 : ℚ) = ["img.png"]
      unfold trainFilenames
      rw [show (numTrainFiles (["img.png"] : List String).length (0 : ℚ)).toNat = 1 from by
        show (numTrainFiles 1 (0 : ℚ)).toNat = 1
        norm_num [numTrainFiles, pyInt]]
      rfl
    rw [htr]
    rfl
  · exact ⟨⟨"train-00000-of-00002", []⟩, List.mem_cons_self _ _, rfl⟩

end BuildImageData
